import Mathlib

/-!
Verification of the evolutionary NAS search engine
(`archai/nlp/nas/evolution.py`) through a shallow embedding.

Genes are lists of natural-number values; one value per search dimension,
drawn from `allowed_genes[k]`.  Randomness is modelled by explicit draw
streams: `np.random.uniform()` draws become rationals supplied by a stream
(a genuine draw lies in `[0,1)`), `random.choices`/`random.sample` draws
become natural-number indices reduced modulo the list length.  Python
floats are modelled as rationals.  External collaborator calls (the model
formula, the latency / parameter / memory measurements and the
gene-to-configuration converter) are oracle function parameters.
-/

namespace Archai

/-- A gene: one candidate of the discrete search space, a list of values,
one per dimension. -/
abbrev Gene := List Nat

/-- `random.choices(lst)[0]`: a uniform draw from `lst`, modelled by an
arbitrary natural draw reduced modulo the length. -/
def chooseFrom (lst : List Nat) (draw : Nat) : Nat :=
  lst.getD (draw % lst.length) 0

/-- One fully random gene, as built inside
`Evolution.sample_random_population`: position `k` is
`random.choices(self.allowed_genes[k])[0]`. -/
def sampleGene (allowed_genes : List (List Nat)) (draw : Nat → Nat) : Gene :=
  (List.range allowed_genes.length).map fun k =>
    chooseFrom (allowed_genes.getD k []) (draw k)

/-- `Evolution._mutation`: for each dimension `k`, if
`np.random.uniform() < mutation_prob` the value is redrawn by
`random.choices(self.allowed_genes[k])[0]`, otherwise copied from the
parent.  `u k` is the uniform draw and `c k` the choice draw used at
dimension `k`. -/
def mutation (mutation_prob : ℚ) (allowed_genes : List (List Nat))
    (gene : Gene) (u : Nat → ℚ) (c : Nat → Nat) : Gene :=
  (List.range allowed_genes.length).map fun k =>
    if u k < mutation_prob then chooseFrom (allowed_genes.getD k []) (c k)
    else gene.getD k 0

/-- `Evolution._crossover`: for each dimension `k`, if
`np.random.uniform() < crossover_prob` the child takes `genes[0][k]`,
otherwise `genes[1][k]`.  `gene_size` is `len(self.allowed_genes)`. -/
def crossover (crossover_prob : ℚ) (gene_size : Nat)
    (genes : List Gene) (u : Nat → ℚ) : Gene :=
  (List.range gene_size).map fun k =>
    if u k < crossover_prob then (genes.getD 0 []).getD k 0
    else (genes.getD 1 []).getD k 0

/-- `Evolution._check_constraints`: rejects when the analytically
estimated total parameter count is below `param_constraint_lower` or
above `param_constraint_upper`; only when both cheap checks pass and
`latency_constraint_upper` is set is the latency measured, rejecting
when it exceeds the bound.  `analyticalParams` stands for
`load_model_formula(...)(model_config)['total']` and `measuredLatency`
for `measure_inference_latency(...)`, both external collaborators. -/
def check_constraints (param_constraint_lower param_constraint_upper : ℚ)
    (latency_constraint_upper : Option ℚ)
    (analyticalParams : Gene → ℚ) (measuredLatency : Gene → ℚ)
    (gene : Gene) : Bool :=
  if analyticalParams gene < param_constraint_lower then false
  else if param_constraint_upper < analyticalParams gene then false
  else
    match latency_constraint_upper with
    | none => true
    | some ub => if ub < measuredLatency gene then false else true

/-- `Evolution.sample_random_population`: keeps drawing fully random
genes, appending those passing `_check_constraints`, until `n` genes are
collected.  The source loop is unbounded, so it is given `fuel`
(attempts still permitted); `none` means the fuel ran out before the
quota was met.  `t` is the attempt counter indexing the draw stream. -/
def sampleRandomPopulation (check : Gene → Bool)
    (allowed_genes : List (List Nat)) (draws : Nat → Nat → Nat) :
    Nat → Nat → Nat → Option (List Gene)
  | _, _, 0 => some []
  | 0, _, _ + 1 => none
  | fuel + 1, t, n + 1 =>
    let g := sampleGene allowed_genes (draws t)
    if check g then
      (sampleRandomPopulation check allowed_genes draws fuel (t + 1) n).map (g :: ·)
    else
      sampleRandomPopulation check allowed_genes draws fuel (t + 1) (n + 1)

/-- A gene lies in the search space: one value per dimension, each value
a member of that dimension's allowed list. -/
def InSpace (allowed_genes : List (List Nat)) (g : Gene) : Prop :=
  g.length = allowed_genes.length ∧
    ∀ k < allowed_genes.length, g.getD k 0 ∈ allowed_genes.getD k []

/-- Python `max` over a nonempty list of naturals (`max(pareto_counts)`). -/
def listMaxN : List Nat → Nat
  | [] => 0
  | x :: xs => xs.foldl max x

/-- Python `min` over a nonempty list of naturals (`min(pareto_counts)`). -/
def listMinN : List Nat → Nat
  | [] => 0
  | x :: xs => xs.foldl min x

/-- Python `max` over a nonempty list of rationals (`max(self.all_params)`). -/
def listMaxQ : List ℚ → ℚ
  | [] => 0
  | x :: xs => xs.foldl max x

/-- The occurrence counts of the Pareto-frontier genes
(`pareto_counts` in `Evolution._calculate_weighted_count`).  The
occurrence counter `self.counts` is modelled as the list of every gene
occurrence ever recorded by `_update_gene_count`; the gene key
(modelled from the spec: `Converter.gene_to_key`, not under `src/`,
maps a gene to its canonical value tuple) is the gene's value list
itself. -/
def paretoCounts (counts : List Gene) (paretoPopulation : List Gene) : List Nat :=
  paretoPopulation.map fun g => counts.count g

/-- `counts_range` in `Evolution._calculate_weighted_count`:
`counts_max` itself when `counts_max == counts_min`, else their
difference. -/
def countsRange (pareto_counts : List Nat) : ℚ :=
  if listMaxN pareto_counts = listMinN pareto_counts
  then (listMaxN pareto_counts : ℚ)
  else (listMaxN pareto_counts : ℚ) - (listMinN pareto_counts : ℚ)

/-- `scaled_counts` in `Evolution._calculate_weighted_count`: each
count scaled into `[0, 1]` as `(count - counts_min) / counts_range`. -/
def scaledCounts (counts : List Gene) (paretoPopulation : List Gene) : List ℚ :=
  (paretoCounts counts paretoPopulation).map fun (c : Nat) =>
    ((c : ℚ) - (listMinN (paretoCounts counts paretoPopulation) : ℚ)) /
      countsRange (paretoCounts counts paretoPopulation)

/-- `count_weights` before normalization in
`Evolution._calculate_weighted_count`: `1 / (scaled_count + 1)`. -/
def countWeights (counts : List Gene) (paretoPopulation : List Gene) : List ℚ :=
  (scaledCounts counts paretoPopulation).map fun s => 1 / (s + 1)

/-- `Evolution._calculate_weighted_count`: scale the counts into `[0,1]`,
invert, and renormalize to a probability vector. -/
def calculate_weighted_count (counts : List Gene) (paretoPopulation : List Gene) :
    List ℚ :=
  (countWeights counts paretoPopulation).map fun w =>
    w / (countWeights counts paretoPopulation).sum

/-- One row of the objective matrix handed to the Pareto search:
transformed decoder-parameter count, latency, memory. -/
structure Point3 where
  x : ℚ
  y : ℚ
  z : ℚ
deriving DecidableEq

/-- Dominance in the decreasing sense: `a` dominates `b` iff `a` is at
most `b` on every axis and strictly below on at least one. -/
def Dominates (a b : Point3) : Prop :=
  (a.x ≤ b.x ∧ a.y ≤ b.y ∧ a.z ≤ b.z) ∧ (a.x < b.x ∨ a.y < b.y ∨ a.z < b.z)

instance (a b : Point3) : Decidable (Dominates a b) := by
  unfold Dominates
  infer_instance

/-- Modelled from the spec: `find_pareto_points`
(`archai.nlp.nas.nas_utils.pareto_front`, not under `src/`) returns the
index set of the non-dominated points of its input matrix; with
`is_decreasing=True` every axis is minimized and point A dominates
point B iff A is at least as good (≤) on every axis and strictly
better (<) on at least one; tied points remain on the frontier. -/
def find_pareto_points (points : List Point3) : List Nat :=
  (List.range points.length).filter fun i =>
    decide (∀ j < points.length,
      ¬ Dominates (points.getD j ⟨0, 0, 0⟩) (points.getD i ⟨0, 0, 0⟩))

/-- The transformed objective vector of history point `i` as assembled
in `Evolution._update_pareto_front`: the decoder-parameter axis is
`max(all_params) - params` (so all three axes decrease), then latency,
then memory. -/
def historyPoint (all_params all_latencies all_memories : List ℚ) (i : Nat) : Point3 :=
  ⟨listMaxQ all_params - all_params.getD i 0,
   all_latencies.getD i 0, all_memories.getD i 0⟩

/-- The Pareto-frontier record `self.pareto`. -/
structure ParetoFront where
  population : List Gene
  params : List ℚ
  total_params : List ℚ
  latencies : List ℚ
  memories : List ℚ
deriving DecidableEq

/-- `Evolution._update_pareto_front`: rebuilds `self.pareto` from the
whole evaluation history, selecting the rows whose index survives
`find_pareto_points` over the transformed objective matrix. -/
def update_pareto_front (all_population : List Gene)
    (all_params all_total_params all_latencies all_memories : List ℚ) :
    ParetoFront :=
  let points := (List.range all_params.length).map
    (historyPoint all_params all_latencies all_memories)
  let p_inds := find_pareto_points points
  { population := p_inds.map (all_population.getD · [])
    params := p_inds.map (all_params.getD · 0)
    total_params := p_inds.map (all_total_params.getD · 0)
    latencies := p_inds.map (all_latencies.getD · 0)
    memories := p_inds.map (all_memories.getD · 0) }

/-- The scalar configuration of `Evolution.__init__` that the search
loop reads. -/
structure EvolutionConfig where
  population_size : Nat
  parent_size : Nat
  mutation_size : Nat
  mutation_prob : ℚ
  crossover_size : Nat
  crossover_prob : ℚ
  param_constraint_lower : ℚ
  param_constraint_upper : ℚ
  latency_constraint_upper : Option ℚ
  allowed_genes : List (List Nat)

/-- The `assert` of `Evolution.__init__` (line 85): construction aborts
unless `population_size == parent_size + mutation_size + crossover_size`. -/
def evolutionInit (cfg : EvolutionConfig) : Option EvolutionConfig :=
  if cfg.population_size = cfg.parent_size + cfg.mutation_size + cfg.crossover_size
  then some cfg else none

/-- The external collaborators consumed by the search loop:
the measured objective vector of `Evolution._calculate_constraints`
(decoder params, total params, latency, memory) and the two oracles of
`Evolution._check_constraints`. -/
structure Oracles where
  objectives : Gene → ℚ × ℚ × ℚ × ℚ
  analyticalParams : Gene → ℚ
  measuredLatency : Gene → ℚ

/-- `Evolution._calculate_constraints`: measures every gene of the
batch, returning the four parallel objective lists. -/
def calculate_constraints (objectives : Gene → ℚ × ℚ × ℚ × ℚ)
    (genes : List Gene) : List ℚ × List ℚ × List ℚ × List ℚ :=
  (genes.map fun g => (objectives g).1,
   genes.map fun g => (objectives g).2.1,
   genes.map fun g => (objectives g).2.2.1,
   genes.map fun g => (objectives g).2.2.2)

/-- `Evolution._is_seen_before`: the gene's key is already present in
the occurrence counter. -/
def is_seen_before (counts : List Gene) (gene : Gene) : Bool :=
  counts.contains gene

/-- The child-accumulation loops of `Evolution.search` (lines 655-671):
keep producing candidates, appending those that pass
`_check_constraints` and were not seen before, until `quota` children
are accumulated.  The source loops are unbounded, so the model carries
`fuel`; `t` is the attempt counter indexing the candidate stream. -/
def generateChildren (valid : Gene → Bool) (seen : Gene → Bool)
    (candidate : Nat → Gene) : Nat → Nat → Nat → Option (List Gene)
  | _, _, 0 => some []
  | 0, _, _ + 1 => none
  | fuel + 1, t, quota + 1 =>
    let g := candidate t
    if valid g && !seen g then
      (generateChildren valid seen candidate fuel (t + 1) quota).map (g :: ·)
    else
      generateChildren valid seen candidate fuel (t + 1) (quota + 1)

/-- The random draws consumed by one generation of `Evolution.search`:
the weighted `np.random.choice` over the frontier, the
`random.choices` of a mutation parent, the per-dimension mutation
draws, and the `random.sample` pair plus per-dimension draws of
crossover.  Each stream is indexed by the position or attempt. -/
structure GenRand where
  parentDraw : Nat → Nat
  mutParent : Nat → Nat
  mutU : Nat → Nat → ℚ
  mutC : Nat → Nat → Nat
  crossFst : Nat → Nat
  crossSnd : Nat → Nat
  crossU : Nat → Nat → ℚ

/-- The mutable search state of `Evolution` carried across generations:
the current population, the append-only evaluation history, the
occurrence counter (as the list of recorded gene occurrences), the
objective values of the currently selected parents, and the
`population_params` vector logged this generation. -/
structure SearchState where
  population : List Gene
  all_population : List Gene
  all_params : List ℚ
  all_total_params : List ℚ
  all_latencies : List ℚ
  all_memories : List ℚ
  counts : List Gene
  parents_params : List ℚ
  parents_total_params : List ℚ
  parents_latencies : List ℚ
  parents_memories : List ℚ
  log_params : List ℚ
deriving DecidableEq

/-- One generation of `Evolution.search` (the body of the
`for i in range(self.n_iter)` loop, lines 611-703): evaluate the
not-yet-evaluated suffix of the population (`idx = 0` on the first
iteration, `parent_size` afterwards), append the new objective values
to the history, recompute the Pareto frontier over the whole history,
draw `parent_size` parents from the frontier, accumulate
`mutation_size` mutated and `crossover_size` crossovered novel valid
children, and assemble the next population as
`parents ++ mutated ++ crossovered`.  The weighted parent
distribution is computed as in the source; the weighted draw itself is
abstracted by the `parentDraw` stream.  `none` means one of the
unbounded child loops ran out of fuel. -/
def searchStep (cfg : EvolutionConfig) (o : Oracles) (rand : GenRand)
    (fuel : Nat) (isFirst : Bool) (st : SearchState) : Option SearchState :=
  let idx := if isFirst then 0 else cfg.parent_size
  let obj := calculate_constraints o.objectives (st.population.drop idx)
  let population_params := st.parents_params ++ obj.1
  let all_params := st.all_params ++ obj.1
  let all_total_params := st.all_total_params ++ obj.2.1
  let all_latencies := st.all_latencies ++ obj.2.2.1
  let all_memories := st.all_memories ++ obj.2.2.2
  let pareto := update_pareto_front st.all_population
    all_params all_total_params all_latencies all_memories
  let weights := calculate_weighted_count st.counts pareto.population
  let np := pareto.population.length
  let parents_population := (List.range cfg.parent_size).map fun m =>
    pareto.population.getD (rand.parentDraw m % np) []
  let parents_params := (List.range cfg.parent_size).map fun m =>
    pareto.params.getD (rand.parentDraw m % np) 0
  let parents_total_params := (List.range cfg.parent_size).map fun m =>
    pareto.total_params.getD (rand.parentDraw m % np) 0
  let parents_latencies := (List.range cfg.parent_size).map fun m =>
    pareto.latencies.getD (rand.parentDraw m % np) 0
  let parents_memories := (List.range cfg.parent_size).map fun m =>
    pareto.memories.getD (rand.parentDraw m % np) 0
  let valid := check_constraints cfg.param_constraint_lower
    cfg.param_constraint_upper cfg.latency_constraint_upper
    o.analyticalParams o.measuredLatency
  let seen := is_seen_before st.counts
  let mutCandidate := fun t =>
    mutation cfg.mutation_prob cfg.allowed_genes
      (parents_population.getD (rand.mutParent t % cfg.parent_size) [])
      (rand.mutU t) (rand.mutC t)
  match generateChildren valid seen mutCandidate fuel 0 cfg.mutation_size with
  | none => none
  | some mutated_population =>
    let crossCandidate := fun t =>
      crossover cfg.crossover_prob cfg.allowed_genes.length
        [parents_population.getD (rand.crossFst t % cfg.parent_size) [],
         parents_population.getD (rand.crossSnd t % cfg.parent_size) []]
        (rand.crossU t)
    match generateChildren valid seen crossCandidate fuel 0 cfg.crossover_size with
    | none => none
    | some crossovered_population =>
      let population := parents_population ++ mutated_population ++ crossovered_population
      some { population := population
             all_population :=
               st.all_population ++ mutated_population ++ crossovered_population
             all_params := all_params
             all_total_params := all_total_params
             all_latencies := all_latencies
             all_memories := all_memories
             counts := st.counts ++ population
             parents_params := parents_params
             parents_total_params := parents_total_params
             parents_latencies := parents_latencies
             parents_memories := parents_memories
             log_params := population_params }

/-- The state right after the initial sampling in `Evolution.search`
(lines 592-596): the sampled population is the whole visited history
and is recorded in the occurrence counter; no objective value has been
measured yet and no parents exist. -/
def initialSearchState (population : List Gene) : SearchState :=
  { population := population
    all_population := population
    all_params := []
    all_total_params := []
    all_latencies := []
    all_memories := []
    counts := population
    parents_params := []
    parents_total_params := []
    parents_latencies := []
    parents_memories := []
    log_params := [] }

/-- `n` generations of `Evolution.search` from a given state; the first
generation (index 0) evaluates the whole population. -/
def searchRun (cfg : EvolutionConfig) (o : Oracles) (rand : Nat → GenRand)
    (fuel : Nat) (init : SearchState) : Nat → Option SearchState
  | 0 => some init
  | n + 1 =>
    match searchRun cfg o rand fuel init n with
    | none => none
    | some st => searchStep cfg o (rand n) fuel (n == 0) st

/-- A small concrete configuration exercising one generation: two
dimensions with allowed values `[0,1,2]` and `[0,1]`, four population
slots (two parents, one mutation, one crossover), and constraints that
accept everything. -/
def exampleConfig : EvolutionConfig :=
  { population_size := 4
    parent_size := 2
    mutation_size := 1
    mutation_prob := 1
    crossover_size := 1
    crossover_prob := 1
    param_constraint_lower := 0
    param_constraint_upper := 100
    latency_constraint_upper := none
    allowed_genes := [[0, 1, 2], [0, 1]] }

/-- Concrete collaborator oracles for `exampleConfig`: genes `[0,0]`
and `[1,1]` measure 2 decoder parameters at latency 1, all others 0
parameters at latency 5, so those two genes form the frontier. -/
def exampleOracles : Oracles :=
  { objectives := fun g =>
      (if g = [0, 0] ∨ g = [1, 1] then 2 else 0, 0,
       if g = [0, 0] ∨ g = [1, 1] then 1 else 5, 0)
    analyticalParams := fun _ => 0
    measuredLatency := fun _ => 0 }

/-- Concrete draw streams for `exampleConfig`: parents are frontier
entries 0 and 1; mutation redraws to the gene `[0, 1]`; crossover mixes
the first parent's head with the second parent's tail, also `[0, 1]`. -/
def exampleRand : GenRand :=
  { parentDraw := fun m => m
    mutParent := fun _ => 0
    mutU := fun _ _ => 0
    mutC := fun _ k => if k = 0 then 0 else 1
    crossFst := fun _ => 0
    crossSnd := fun _ => 1
    crossU := fun _ k => if k = 0 then 0 else 1 }

/-- Concrete post-sampling state for `exampleConfig`: the four initial
genes. -/
def exampleState : SearchState :=
  initialSearchState [[0, 0], [1, 1], [2, 0], [2, 1]]

/- Helper lemmas about indexing. -/

theorem map_range_getD (l : List Nat) :
    (List.range l.length).map (fun k => l.getD k 0) = l := by
  induction l with
  | nil => simp
  | cons x xs ih =>
    rw [List.length_cons, List.range_succ_eq_map, List.map_cons, List.map_map]
    have hc : ((fun k => (x :: xs).getD k 0) ∘ Nat.succ) = fun k => xs.getD k 0 := by
      funext k
      simp [List.getD_cons_succ]
    rw [hc, ih]
    simp [List.getD_cons_zero]

theorem chooseFrom_mem (lst : List Nat) (draw : Nat) (h : lst ≠ []) :
    chooseFrom lst draw ∈ lst := by
  have hlen : draw % lst.length < lst.length :=
    Nat.mod_lt _ (List.length_pos.mpr h)
  rw [chooseFrom, List.getD_eq_getElem _ _ hlen]
  exact List.getElem_mem hlen

theorem getD_map_range {α : Type} (d : α) (n k : Nat) (f : Nat → α)
    (h : k < n) : ((List.range n).map f).getD k d = f k := by
  have hlen : k < ((List.range n).map f).length := by simpa using h
  rw [List.getD_eq_getElem _ _ hlen]
  simp

/- C6: the two-stage constraint filter. -/

/-- C6: `_check_constraints` accepts a gene iff the analytical total
parameter count lies within `[param_constraint_lower,
param_constraint_upper]` and, when `latency_constraint_upper` is set,
the measured latency does not exceed it; moreover when the cheap
parameter check fails the verdict (false) is independent of the latency
oracle, so the expensive measurement is never consulted; rejection is
the value `false`, not an error. -/
theorem check_constraints_correct (pl pu : ℚ) (lu : Option ℚ)
    (fP : Gene → ℚ) (g : Gene) :
    (∀ fL : Gene → ℚ,
      (check_constraints pl pu lu fP fL g = true ↔
        (pl ≤ fP g ∧ fP g ≤ pu ∧ ∀ ub, lu = some ub → fL g ≤ ub))) ∧
    (∀ fL fL' : Gene → ℚ, (fP g < pl ∨ pu < fP g) →
      check_constraints pl pu lu fP fL g =
        check_constraints pl pu lu fP fL' g) := by
  have hmain : ∀ fL : Gene → ℚ,
      (check_constraints pl pu lu fP fL g = true ↔
        (pl ≤ fP g ∧ fP g ≤ pu ∧ ∀ ub, lu = some ub → fL g ≤ ub)) := by
    intro fL
    cases lu with
    | none =>
      simp only [check_constraints]
      split_ifs with h1 h2
      · simp [not_le.mpr h1]
      · simp [not_le.mpr h2]
      · simp [not_lt.mp h1, not_lt.mp h2]
    | some ub =>
      simp only [check_constraints]
      split_ifs with h1 h2 h3
      · simp [not_le.mpr h1]
      · simp [not_le.mpr h2]
      · simp [not_lt.mp h1, not_lt.mp h2, not_le.mpr h3]
      · simp [not_lt.mp h1, not_lt.mp h2, not_lt.mp h3]
  refine ⟨hmain, ?_⟩
  intro fL fL' hbad
  have hfalse : ∀ fL0 : Gene → ℚ, check_constraints pl pu lu fP fL0 g = false := by
    intro fL0
    cases hc : check_constraints pl pu lu fP fL0 g with
    | false => rfl
    | true =>
      exfalso
      obtain ⟨ha, hb, -⟩ := (hmain fL0).mp hc
      rcases hbad with h | h
      · exact absurd ha (not_le.mpr h)
      · exact absurd hb (not_le.mpr h)
  rw [hfalse fL, hfalse fL']

/- C6 witness. -/

/-- C6 witness: with an analytical estimate of 200 against an upper
bound of 100, the verdict is the same for two different latency
oracles. -/
theorem check_constraints_correct_witness :
    check_constraints 0 100 (some 1) (fun _ => 200) (fun _ => 0) [0] =
      check_constraints 0 100 (some 1) (fun _ => 200) (fun _ => 1) [0] :=
  (check_constraints_correct 0 100 (some 1) (fun _ => 200) [0]).2
    (fun _ => 0) (fun _ => 1) (Or.inr (by decide))

/- C10: crossover of a gene with itself. -/

/-- C10: for every crossover probability and every sequence of uniform
draws, `_crossover` applied to the pair `[g, g]` returns `g` (each
dimension copies one of the two identical parents). -/
theorem crossover_self_identity (crossover_prob : ℚ) (gene_size : Nat)
    (g : Gene) (u : Nat → ℚ) (h : g.length = gene_size) :
    crossover crossover_prob gene_size [g, g] u = g := by
  subst h
  unfold crossover
  have hfun : (fun k =>
      if u k < crossover_prob then (([g, g] : List Gene).getD 0 []).getD k 0
      else (([g, g] : List Gene).getD 1 []).getD k 0) = fun k => g.getD k 0 := by
    funext k
    simp [List.getD]
  rw [hfun, map_range_getD]

/-- C10 witness: crossing `[3, 4]` with itself returns `[3, 4]`. -/
theorem crossover_self_identity_witness :
    crossover 1 2 [[3, 4], [3, 4]] (fun _ => 0) = [3, 4] :=
  crossover_self_identity 1 2 [3, 4] (fun _ => 0) (by decide)

/- C8: mutation at the extreme probabilities. -/

/-- C8 counterexample: with `mutation_prob = 1.0` the redraw
`random.choices(allowed_genes[k])[0]` may return the parent's own
value, so the child can equal its parent even in a dimension with two
allowed values — here parent `[0]` over allowed values `[0, 1]` with a
genuine uniform draw `0 ∈ [0,1)` and choice draw `0` yields `[0]`
again. -/
theorem mutation_prob_one_counterexample :
    mutation 1 [[0, 1]] [0] (fun _ => 0) (fun _ => 0) = [0] ∧
      (0 : ℚ) ≤ 0 ∧ (0 : ℚ) < 1 ∧
      1 < (([[0, 1]] : List (List Nat)).getD 0 []).length := by
  refine ⟨?_, by decide, by decide, by decide⟩
  decide

/-- C8 (amended): for every parent and every sequence of genuine
uniform draws (each in `[0,1)`), `_mutation` with `mutation_prob = 0.0`
returns the parent unchanged, and with `mutation_prob = 1.0` redraws
every dimension from its allowed list (the result is exactly the fully
random gene of the choice draws, which may coincide with the parent's
value in any dimension). -/
theorem mutation_extreme_probs (allowed_genes : List (List Nat)) (g : Gene)
    (u : Nat → ℚ) (c : Nat → Nat)
    (hlen : g.length = allowed_genes.length)
    (hu0 : ∀ k, 0 ≤ u k) (hu1 : ∀ k, u k < 1) :
    mutation 0 allowed_genes g u c = g ∧
    mutation 1 allowed_genes g u c = sampleGene allowed_genes c := by
  constructor
  · unfold mutation
    have hfun : (fun k =>
        if u k < (0 : ℚ) then chooseFrom (allowed_genes.getD k []) (c k)
        else g.getD k 0) = fun k => g.getD k 0 :=
      funext fun k => if_neg (not_lt.mpr (hu0 k))
    rw [hfun, ← hlen, map_range_getD]
  · unfold mutation sampleGene
    have hfun : (fun k =>
        if u k < (1 : ℚ) then chooseFrom (allowed_genes.getD k []) (c k)
        else g.getD k 0) = fun k => chooseFrom (allowed_genes.getD k []) (c k) :=
      funext fun k => if_pos (hu1 k)
    rw [hfun]

/-- C8 witness: over allowed values `[0, 1]` with parent `[0]`, zero
probability copies the parent and unit probability returns the gene of
the choice draws. -/
theorem mutation_extreme_probs_witness :
    mutation 0 [[0, 1]] [0] (fun _ => 0) (fun _ => 1) = [0] ∧
    mutation 1 [[0, 1]] [0] (fun _ => 0) (fun _ => 1) =
      sampleGene [[0, 1]] (fun _ => 1) :=
  mutation_extreme_probs [[0, 1]] [0] (fun _ => 0) (fun _ => 1)
    (by decide) (fun _ => (by decide : (0 : ℚ) ≤ 0))
    (fun _ => (by decide : (0 : ℚ) < 1))

/- C9: gene-space closure. -/

/-- C9: when every dimension has at least one allowed value, random
sampling stays in the search space, and mutation and crossover keep
genes in the search space: mutation either copies the parent's value or
redraws from the dimension's allowed list, and crossover copies one of
its two parents' values. -/
theorem gene_space_closure (allowed_genes : List (List Nat))
    (hne : ∀ k < allowed_genes.length, allowed_genes.getD k [] ≠ []) :
    (∀ draw, InSpace allowed_genes (sampleGene allowed_genes draw)) ∧
    (∀ (p : ℚ) g u c, InSpace allowed_genes g →
      InSpace allowed_genes (mutation p allowed_genes g u c)) ∧
    (∀ (p : ℚ) g1 g2 u, InSpace allowed_genes g1 → InSpace allowed_genes g2 →
      InSpace allowed_genes (crossover p allowed_genes.length [g1, g2] u)) := by
  refine ⟨?_, ?_, ?_⟩
  · intro draw
    constructor
    · simp [sampleGene]
    · intro k hk
      rw [sampleGene, getD_map_range _ _ _ _ hk]
      exact chooseFrom_mem _ _ (hne k hk)
  · intro p g u c hg
    constructor
    · simp [mutation]
    · intro k hk
      rw [mutation, getD_map_range _ _ _ _ hk]
      by_cases hu : u k < p
      · rw [if_pos hu]
        exact chooseFrom_mem _ _ (hne k hk)
      · rw [if_neg hu]
        exact hg.2 k hk
  · intro p g1 g2 u hg1 hg2
    constructor
    · simp [crossover]
    · intro k hk
      rw [crossover, getD_map_range _ _ _ _ hk]
      by_cases hu : u k < p
      · rw [if_pos hu]
        exact hg1.2 k hk
      · rw [if_neg hu]
        exact hg2.2 k hk

/-- C9 witness: over the one-dimensional space with allowed values
`[0, 1]`, a random sample lies in the space. -/
theorem gene_space_closure_witness :
    InSpace [[0, 1]] (sampleGene [[0, 1]] (fun _ => 0)) :=
  (gene_space_closure [[0, 1]] (by decide)).1 (fun _ => 0)

/- C5: the initial random sampling. -/

theorem sampleRandomPopulation_sound (check : Gene → Bool)
    (allowed_genes : List (List Nat)) (draws : Nat → Nat → Nat) :
    ∀ fuel t n pop,
      sampleRandomPopulation check allowed_genes draws fuel t n = some pop →
      pop.length = n ∧ ∀ g ∈ pop, check g = true := by
  intro fuel
  induction fuel with
  | zero =>
    intro t n pop h
    cases n with
    | zero =>
      simp only [sampleRandomPopulation, Option.some.injEq] at h
      subst h
      exact ⟨rfl, by simp⟩
    | succ n => simp [sampleRandomPopulation] at h
  | succ fuel ih =>
    intro t n pop h
    cases n with
    | zero =>
      simp only [sampleRandomPopulation, Option.some.injEq] at h
      subst h
      exact ⟨rfl, by simp⟩
    | succ n =>
      rw [sampleRandomPopulation] at h
      by_cases hc : check (sampleGene allowed_genes (draws t)) = true
      · rw [if_pos hc, Option.map_eq_some'] at h
        obtain ⟨pop', hrec, hcons⟩ := h
        obtain ⟨hlen, hall⟩ := ih (t + 1) n pop' hrec
        subst hcons
        refine ⟨by simp [hlen], ?_⟩
        intro g hg
        rcases List.mem_cons.mp hg with hg | hg
        · exact hg ▸ hc
        · exact hall g hg
      · rw [if_neg hc] at h
        exact ih (t + 1) (n + 1) pop h

/-- C5 counterexample: `sample_random_population` never checks for
duplicates, so with a one-gene space whose single gene passes the
parameter check (analytical estimate 0 within `[0, 1]`, no latency
bound) the sampler terminates with the gene `[5]` twice — the returned
genes are not pairwise distinct. -/
theorem sample_random_population_duplicates :
    sampleRandomPopulation
        (check_constraints 0 1 none (fun _ => 0) (fun _ => 0)) [[5]]
        (fun _ _ => 0) 2 0 2 = some [[5], [5]] ∧
      ¬ ([[5], [5]] : List Gene).Nodup := by
  refine ⟨by decide, by decide⟩

/-- C5 (amended): whenever `sample_random_population(n)` terminates it
returns exactly `n` genes, each of which satisfies
`_check_constraints`; the returned genes need not be pairwise
distinct. -/
theorem sample_random_population_length_valid
    (pl pu : ℚ) (lu : Option ℚ) (fP fL : Gene → ℚ)
    (allowed_genes : List (List Nat)) (draws : Nat → Nat → Nat)
    (fuel t n : Nat) (pop : List Gene)
    (h : sampleRandomPopulation (check_constraints pl pu lu fP fL)
      allowed_genes draws fuel t n = some pop) :
    pop.length = n ∧
      ∀ g ∈ pop, check_constraints pl pu lu fP fL g = true :=
  sampleRandomPopulation_sound _ allowed_genes draws fuel t n pop h

/-- C5 witness: the sampler of the counterexample returns two genes,
both satisfying the constraint check. -/
theorem sample_random_population_length_valid_witness :
    ([[5], [5]] : List Gene).length = 2 ∧
      ∀ g ∈ ([[5], [5]] : List Gene),
        check_constraints 0 1 none (fun _ => 0) (fun _ => 0) g = true :=
  sample_random_population_length_valid 0 1 none (fun _ => 0) (fun _ => 0)
    [[5]] (fun _ _ => 0) 2 0 2 [[5], [5]] (by decide)

/- C1: characterization of the recomputed Pareto frontier. -/

/-- C1: `_update_pareto_front` rebuilds the frontier from scratch over
the entire evaluation history: its population is exactly the history
entries (in index order) whose transformed objective vector — the
decoder-parameter axis replaced by `max(all_params) - params` so that
all three axes decrease, then latency and memory — is dominated by no
history point whatsoever; every frontier member arises from such a
non-dominated history index, and every non-dominated history index
contributes its gene to the frontier. -/
theorem update_pareto_front_characterization
    (all_population : List Gene) (ps tps ls ms : List ℚ)
    (hp : ps.length = all_population.length)
    (hl : ls.length = all_population.length)
    (hm : ms.length = all_population.length) :
    ((update_pareto_front all_population ps tps ls ms).population =
      ((List.range all_population.length).filter fun i =>
          decide (∀ j < all_population.length,
            ¬ Dominates (historyPoint ps ls ms j) (historyPoint ps ls ms i))).map
        fun i => all_population.getD i []) ∧
    (∀ g ∈ (update_pareto_front all_population ps tps ls ms).population,
      ∃ i < all_population.length, g = all_population.getD i [] ∧
        ∀ j < all_population.length,
          ¬ Dominates (historyPoint ps ls ms j) (historyPoint ps ls ms i)) ∧
    (∀ i < all_population.length,
      (∀ j < all_population.length,
        ¬ Dominates (historyPoint ps ls ms j) (historyPoint ps ls ms i)) →
      all_population.getD i [] ∈
        (update_pareto_front all_population ps tps ls ms).population) := by
  have hg : ∀ k < all_population.length,
      ((List.range all_population.length).map (historyPoint ps ls ms)).getD k
          ⟨0, 0, 0⟩ = historyPoint ps ls ms k := by
    intro k hk
    exact getD_map_range _ _ _ _ hk
  have hkey : (update_pareto_front all_population ps tps ls ms).population =
      ((List.range all_population.length).filter fun i =>
          decide (∀ j < all_population.length,
            ¬ Dominates (historyPoint ps ls ms j) (historyPoint ps ls ms i))).map
        fun i => all_population.getD i [] := by
    simp only [update_pareto_front, find_pareto_points, List.length_map,
      List.length_range]
    rw [hp]
    refine congrArg (List.map _) (List.filter_congr ?_)
    intro i hi
    rw [List.mem_range] at hi
    refine decide_eq_decide.mpr ?_
    constructor
    · intro h j hj
      have hji := h j hj
      rw [hg j hj, hg i hi] at hji
      exact hji
    · intro h j hj
      rw [hg j hj, hg i hi]
      exact h j hj
  refine ⟨hkey, ?_, ?_⟩
  · intro g hmem
    rw [hkey] at hmem
    obtain ⟨i, hi, rfl⟩ := List.mem_map.mp hmem
    obtain ⟨hir, hpred⟩ := List.mem_filter.mp hi
    exact ⟨i, List.mem_range.mp hir, rfl, of_decide_eq_true hpred⟩
  · intro i hi hnd
    rw [hkey]
    exact List.mem_map.mpr
      ⟨i, List.mem_filter.mpr ⟨List.mem_range.mpr hi, decide_eq_true hnd⟩, rfl⟩

/- C7: helper facts about the nonempty-list maximum and minimum. -/

theorem self_le_foldl_max (l : List Nat) (a : Nat) : a ≤ l.foldl max a := by
  induction l generalizing a with
  | nil => exact le_refl a
  | cons x xs ih => exact le_trans (le_max_left a x) (ih (max a x))

theorem mem_le_foldl_max {x : Nat} (l : List Nat) :
    ∀ a, x ∈ l → x ≤ l.foldl max a := by
  induction l with
  | nil => intro a hx; cases hx
  | cons y ys ih =>
    intro a hx
    rw [List.foldl_cons]
    rcases List.mem_cons.mp hx with h | h
    · subst h
      exact le_trans (le_max_right a x) (self_le_foldl_max ys (max a x))
    · exact ih (max a y) h

theorem le_listMaxN {x : Nat} {l : List Nat} (hx : x ∈ l) : x ≤ listMaxN l := by
  cases l with
  | nil => cases hx
  | cons y ys =>
    rcases List.mem_cons.mp hx with h | h
    · subst h
      exact self_le_foldl_max ys x
    · exact mem_le_foldl_max ys y h

theorem foldl_min_le_self (l : List Nat) (a : Nat) : l.foldl min a ≤ a := by
  induction l generalizing a with
  | nil => exact le_refl a
  | cons x xs ih => exact le_trans (ih (min a x)) (min_le_left a x)

theorem foldl_min_le_mem {x : Nat} (l : List Nat) :
    ∀ a, x ∈ l → l.foldl min a ≤ x := by
  induction l with
  | nil => intro a hx; cases hx
  | cons y ys ih =>
    intro a hx
    rw [List.foldl_cons]
    rcases List.mem_cons.mp hx with h | h
    · subst h
      exact le_trans (foldl_min_le_self ys (min a x)) (min_le_right a x)
    · exact ih (min a y) h

theorem listMinN_le {x : Nat} {l : List Nat} (hx : x ∈ l) : listMinN l ≤ x := by
  cases l with
  | nil => cases hx
  | cons y ys =>
    rcases List.mem_cons.mp hx with h | h
    · subst h
      exact foldl_min_le_self ys x
    · exact foldl_min_le_mem ys y h

theorem sum_map_div (l : List ℚ) (t : ℚ) :
    (l.map fun w => w / t).sum = l.sum / t := by
  induction l with
  | nil => simp
  | cons x xs ih => simp [ih, add_div]

/-- C7: for a nonempty Pareto frontier whose genes each occur at least
once in the occurrence counter (every frontier gene was placed in some
population), the scaling denominator `counts_range` is nonzero — in
particular when all frontier counts coincide it is `counts_max` itself
— the normalizing sum is nonzero, and the returned weights are all
strictly positive and sum to exactly 1. -/
theorem calculate_weighted_count_valid (counts : List Gene)
    (paretoPopulation : List Gene)
    (hne : paretoPopulation ≠ [])
    (hpos : ∀ g ∈ paretoPopulation, 1 ≤ counts.count g) :
    countsRange (paretoCounts counts paretoPopulation) ≠ 0 ∧
    (countWeights counts paretoPopulation).sum ≠ 0 ∧
    (∀ w ∈ calculate_weighted_count counts paretoPopulation, 0 < w) ∧
    (calculate_weighted_count counts paretoPopulation).sum = 1 := by
  have hpcs_ne : paretoCounts counts paretoPopulation ≠ [] := by
    simp [paretoCounts, hne]
  have hpcs_pos : ∀ c ∈ paretoCounts counts paretoPopulation, 1 ≤ c := by
    intro c hc
    obtain ⟨g, hg, rfl⟩ := List.mem_map.mp hc
    exact hpos g hg
  obtain ⟨c0, hc0⟩ := List.exists_mem_of_ne_nil _ hpcs_ne
  have hminmax : listMinN (paretoCounts counts paretoPopulation) ≤
      listMaxN (paretoCounts counts paretoPopulation) :=
    le_trans (listMinN_le hc0) (le_listMaxN hc0)
  have hmax1 : 1 ≤ listMaxN (paretoCounts counts paretoPopulation) :=
    le_trans (hpcs_pos c0 hc0) (le_listMaxN hc0)
  have hrange_pos : 0 < countsRange (paretoCounts counts paretoPopulation) := by
    rw [countsRange]
    by_cases heq : listMaxN (paretoCounts counts paretoPopulation) =
        listMinN (paretoCounts counts paretoPopulation)
    · rw [if_pos heq]
      exact_mod_cast lt_of_lt_of_le Nat.zero_lt_one hmax1
    · rw [if_neg heq]
      have hlt : listMinN (paretoCounts counts paretoPopulation) <
          listMaxN (paretoCounts counts paretoPopulation) :=
        lt_of_le_of_ne hminmax (Ne.symm heq)
      exact sub_pos.mpr (by exact_mod_cast hlt)
  have hscaled_nonneg : ∀ s ∈ scaledCounts counts paretoPopulation, 0 ≤ s := by
    intro s hs
    rw [scaledCounts, List.mem_map] at hs
    obtain ⟨c, hc, rfl⟩ := hs
    refine div_nonneg ?_ (le_of_lt hrange_pos)
    have hmin : listMinN (paretoCounts counts paretoPopulation) ≤ c := listMinN_le hc
    exact sub_nonneg.mpr (by exact_mod_cast hmin)
  have hw_pos : ∀ w ∈ countWeights counts paretoPopulation, 0 < w := by
    intro w hw
    obtain ⟨s, hs, rfl⟩ := List.mem_map.mp hw
    have hs0 : 0 ≤ s := hscaled_nonneg s hs
    exact one_div_pos.mpr (by linarith)
  have hw_ne : countWeights counts paretoPopulation ≠ [] := by
    intro hcontra
    have hlen := congrArg List.length hcontra
    simp only [countWeights, scaledCounts, paretoCounts, List.length_map,
      List.length_nil] at hlen
    exact hne (List.length_eq_zero.mp hlen)
  have hsum_pos : 0 < (countWeights counts paretoPopulation).sum :=
    List.sum_pos _ hw_pos hw_ne
  have hsum_ne : (countWeights counts paretoPopulation).sum ≠ 0 :=
    ne_of_gt hsum_pos
  refine ⟨ne_of_gt hrange_pos, hsum_ne, ?_, ?_⟩
  · intro w hw
    obtain ⟨w0, hw0, rfl⟩ := List.mem_map.mp hw
    exact div_pos (hw_pos w0 hw0) hsum_pos
  · rw [calculate_weighted_count, sum_map_div]
    exact div_self hsum_ne

/-- C7 witness: a singleton frontier whose gene occurs once yields the
weight vector of a nonzero denominator, positive weights, and total
weight 1. -/
theorem calculate_weighted_count_valid_witness :
    countsRange (paretoCounts [[0]] [[0]]) ≠ 0 ∧
    (countWeights [[0]] [[0]]).sum ≠ 0 ∧
    (∀ w ∈ calculate_weighted_count [[0]] [[0]], 0 < w) ∧
    (calculate_weighted_count [[0]] [[0]]).sum = 1 :=
  calculate_weighted_count_valid [[0]] [[0]] (by decide) (by decide)

/- Shared facts about one generation of the search loop. -/

theorem generateChildren_sound (valid seen : Gene → Bool)
    (candidate : Nat → Gene) :
    ∀ fuel t quota l,
      generateChildren valid seen candidate fuel t quota = some l →
      l.length = quota ∧ ∀ g ∈ l, valid g = true ∧ seen g = false := by
  intro fuel
  induction fuel with
  | zero =>
    intro t quota l h
    cases quota with
    | zero =>
      simp only [generateChildren, Option.some.injEq] at h
      subst h
      exact ⟨rfl, by simp⟩
    | succ q => simp [generateChildren] at h
  | succ fuel ih =>
    intro t quota l h
    cases quota with
    | zero =>
      simp only [generateChildren, Option.some.injEq] at h
      subst h
      exact ⟨rfl, by simp⟩
    | succ q =>
      rw [generateChildren] at h
      by_cases hc : (valid (candidate t) && !seen (candidate t)) = true
      · rw [if_pos hc, Option.map_eq_some'] at h
        obtain ⟨l', hrec, hcons⟩ := h
        obtain ⟨hlen, hall⟩ := ih (t + 1) q l' hrec
        subst hcons
        obtain ⟨hv, hs⟩ :=
          (by simpa using hc :
            valid (candidate t) = true ∧ seen (candidate t) = false)
        refine ⟨by simp [hlen], ?_⟩
        intro g hg
        rcases List.mem_cons.mp hg with hg | hg
        · subst hg
          exact ⟨hv, hs⟩
        · exact hall g hg
      · rw [if_neg hc] at h
        exact ih (t + 1) (q + 1) l h

theorem searchStep_inversion (cfg : EvolutionConfig) (o : Oracles)
    (rand : GenRand) (fuel : Nat) (isFirst : Bool) (st st' : SearchState)
    (h : searchStep cfg o rand fuel isFirst st = some st') :
    ∃ parents mutated crossovered : List Gene,
      parents.length = cfg.parent_size ∧
      mutated.length = cfg.mutation_size ∧
      crossovered.length = cfg.crossover_size ∧
      (∀ g ∈ mutated ++ crossovered,
        check_constraints cfg.param_constraint_lower cfg.param_constraint_upper
            cfg.latency_constraint_upper o.analyticalParams o.measuredLatency
            g = true ∧
          is_seen_before st.counts g = false) ∧
      st'.population = parents ++ mutated ++ crossovered ∧
      st'.all_population = st.all_population ++ mutated ++ crossovered ∧
      st'.counts = st.counts ++ st'.population ∧
      st'.parents_params.length = cfg.parent_size ∧
      st'.all_params = st.all_params ++
        ((st.population.drop (if isFirst then 0 else cfg.parent_size)).map
          fun g => (o.objectives g).1) ∧
      st'.all_total_params = st.all_total_params ++
        ((st.population.drop (if isFirst then 0 else cfg.parent_size)).map
          fun g => (o.objectives g).2.1) ∧
      st'.all_latencies = st.all_latencies ++
        ((st.population.drop (if isFirst then 0 else cfg.parent_size)).map
          fun g => (o.objectives g).2.2.1) ∧
      st'.all_memories = st.all_memories ++
        ((st.population.drop (if isFirst then 0 else cfg.parent_size)).map
          fun g => (o.objectives g).2.2.2) ∧
      st'.log_params = st.parents_params ++
        ((st.population.drop (if isFirst then 0 else cfg.parent_size)).map
          fun g => (o.objectives g).1) := by
  simp only [searchStep, calculate_constraints] at h
  split at h
  next => exact absurd h (by simp)
  next mutated hmut =>
    split at h
    next => exact absurd h (by simp)
    next crossovered hcross =>
      rw [Option.some.injEq] at h
      subst h
      obtain ⟨hmlen, hmall⟩ := generateChildren_sound _ _ _ _ _ _ _ hmut
      obtain ⟨hclen, hcall⟩ := generateChildren_sound _ _ _ _ _ _ _ hcross
      refine ⟨_, mutated, crossovered, ?_, hmlen, hclen, ?_, rfl, rfl,
        rfl, ?_, rfl, rfl, rfl, rfl, rfl⟩
      · simp
      · intro g hg
        rcases List.mem_append.mp hg with hg | hg
        · exact hmall g hg
        · exact hcall g hg
      · simp

/- C2: the population-size invariant. -/

/-- C2: construction of `Evolution` succeeds iff `population_size ==
parent_size + mutation_size + crossover_size`; every generation
assembles its next population as `parents ++ mutated ++ crossovered`
in that fixed order with the three blocks of sizes `parent_size`,
`mutation_size` and `crossover_size`, so under the construction
invariant every generation of a run carries exactly `population_size`
genes. -/
theorem population_size_invariant :
    (∀ cfg : EvolutionConfig, (evolutionInit cfg).isSome = true ↔
      cfg.population_size =
        cfg.parent_size + cfg.mutation_size + cfg.crossover_size) ∧
    (∀ (cfg : EvolutionConfig) (o : Oracles) (rand : GenRand) (fuel : Nat)
        (isFirst : Bool) (st st' : SearchState),
      searchStep cfg o rand fuel isFirst st = some st' →
      ∃ parents mutated crossovered : List Gene,
        st'.population = parents ++ mutated ++ crossovered ∧
        parents.length = cfg.parent_size ∧
        mutated.length = cfg.mutation_size ∧
        crossovered.length = cfg.crossover_size ∧
        (cfg.population_size =
            cfg.parent_size + cfg.mutation_size + cfg.crossover_size →
          st'.population.length = cfg.population_size)) ∧
    (∀ (cfg : EvolutionConfig) (o : Oracles) (rand : Nat → GenRand)
        (fuel : Nat) (init : SearchState) (n : Nat) (st' : SearchState),
      cfg.population_size =
        cfg.parent_size + cfg.mutation_size + cfg.crossover_size →
      init.population.length = cfg.population_size →
      searchRun cfg o rand fuel init n = some st' →
      st'.population.length = cfg.population_size) := by
  have hinit : ∀ cfg : EvolutionConfig, (evolutionInit cfg).isSome = true ↔
      cfg.population_size =
        cfg.parent_size + cfg.mutation_size + cfg.crossover_size := by
    intro cfg
    rw [evolutionInit]
    split_ifs with hc
    · simp [hc]
    · simp [hc]
  have hstep : ∀ (cfg : EvolutionConfig) (o : Oracles) (rand : GenRand)
      (fuel : Nat) (isFirst : Bool) (st st' : SearchState),
      searchStep cfg o rand fuel isFirst st = some st' →
      ∃ parents mutated crossovered : List Gene,
        st'.population = parents ++ mutated ++ crossovered ∧
        parents.length = cfg.parent_size ∧
        mutated.length = cfg.mutation_size ∧
        crossovered.length = cfg.crossover_size ∧
        (cfg.population_size =
            cfg.parent_size + cfg.mutation_size + cfg.crossover_size →
          st'.population.length = cfg.population_size) := by
    intro cfg o rand fuel isFirst st st' h
    obtain ⟨p, m, c, hp, hm, hc, -, hpop, -⟩ := searchStep_inversion _ _ _ _ _ _ _ h
    refine ⟨p, m, c, hpop, hp, hm, hc, ?_⟩
    intro hsum
    rw [hpop]
    simp [hp, hm, hc, hsum, Nat.add_assoc]
  refine ⟨hinit, hstep, ?_⟩
  intro cfg o rand fuel init n
  induction n with
  | zero =>
    intro st' hcfg hinitlen hrun
    simp only [searchRun, Option.some.injEq] at hrun
    subst hrun
    exact hinitlen
  | succ n ih =>
    intro st' hcfg hinitlen hrun
    rw [searchRun] at hrun
    cases hprev : searchRun cfg o rand fuel init n with
    | none => rw [hprev] at hrun; simp at hrun
    | some st =>
      rw [hprev] at hrun
      obtain ⟨p, m, c, hpop, hp, hm, hc, hlen⟩ :=
        hstep cfg o (rand n) fuel (n == 0) st st' hrun
      exact hlen hcfg

/- C3: the evaluation and reuse policy. -/

/-- C3: generation 0 evaluates the whole population
(`population_size` genes); every later generation evaluates only
`population[parent_size:]`, i.e. the `mutation_size + crossover_size`
new children; the generation's logged objective vector reuses the
stored parent values for its first `parent_size` entries instead of
recomputing them, and only the newly evaluated objective values are
appended to the evaluation history (all four axes). -/
theorem evaluation_reuse_policy (cfg : EvolutionConfig) (o : Oracles)
    (rand : GenRand) (fuel : Nat) (isFirst : Bool) (st st' : SearchState)
    (hcfg : cfg.population_size =
      cfg.parent_size + cfg.mutation_size + cfg.crossover_size)
    (hpop : st.population.length = cfg.population_size)
    (hstep : searchStep cfg o rand fuel isFirst st = some st') :
    (isFirst = true →
      st.population.drop (if isFirst then 0 else cfg.parent_size) =
        st.population) ∧
    (st.population.drop (if isFirst then 0 else cfg.parent_size)).length =
      (if isFirst then cfg.population_size
       else cfg.mutation_size + cfg.crossover_size) ∧
    st'.all_params = st.all_params ++
      ((st.population.drop (if isFirst then 0 else cfg.parent_size)).map
        fun g => (o.objectives g).1) ∧
    st'.all_total_params = st.all_total_params ++
      ((st.population.drop (if isFirst then 0 else cfg.parent_size)).map
        fun g => (o.objectives g).2.1) ∧
    st'.all_latencies = st.all_latencies ++
      ((st.population.drop (if isFirst then 0 else cfg.parent_size)).map
        fun g => (o.objectives g).2.2.1) ∧
    st'.all_memories = st.all_memories ++
      ((st.population.drop (if isFirst then 0 else cfg.parent_size)).map
        fun g => (o.objectives g).2.2.2) ∧
    st'.log_params = st.parents_params ++
      ((st.population.drop (if isFirst then 0 else cfg.parent_size)).map
        fun g => (o.objectives g).1) := by
  obtain ⟨p, m, c, -, -, -, -, -, -, -, -, hap, hat, hal, ham, hlog⟩ :=
    searchStep_inversion _ _ _ _ _ _ _ hstep
  refine ⟨?_, ?_, hap, hat, hal, ham, hlog⟩
  · intro hfirst
    subst hfirst
    simp
  · cases isFirst with
    | true => simp [hpop]
    | false =>
      simp only [if_neg Bool.false_ne_true, List.length_drop, hpop, hcfg]
      omega

/- C4: novelty and validity of accepted children. -/

/-- C4: the child loops keep drawing candidates, discarding every
candidate that fails `_check_constraints` or whose key was seen
before, until exactly the requested quota is accumulated; hence in
every generation the accepted children — the population past the
`parent_size` parents — number exactly `mutation_size +
crossover_size`, each satisfies the constraint check, and none shares
a key with any gene recorded in the occurrence counter (every gene of
every previous population of the run); afterwards the whole new
population is recorded in the counter. -/
theorem children_novel_and_valid (cfg : EvolutionConfig) (o : Oracles)
    (rand : GenRand) (fuel : Nat) (isFirst : Bool) (st st' : SearchState)
    (hstep : searchStep cfg o rand fuel isFirst st = some st') :
    (∀ (valid seen : Gene → Bool) (candidate : Nat → Gene)
        (fuel0 t quota : Nat) (l : List Gene),
      generateChildren valid seen candidate fuel0 t quota = some l →
      l.length = quota ∧ ∀ g ∈ l, valid g = true ∧ seen g = false) ∧
    (st'.population.drop cfg.parent_size).length =
      cfg.mutation_size + cfg.crossover_size ∧
    (∀ g ∈ st'.population.drop cfg.parent_size,
      check_constraints cfg.param_constraint_lower cfg.param_constraint_upper
          cfg.latency_constraint_upper o.analyticalParams o.measuredLatency
          g = true ∧
        is_seen_before st.counts g = false) ∧
    st'.counts = st.counts ++ st'.population := by
  obtain ⟨p, m, c, hplen, hmlen, hclen, hall, hpop, -, hcounts, -⟩ :=
    searchStep_inversion _ _ _ _ _ _ _ hstep
  have hdrop : st'.population.drop cfg.parent_size = m ++ c := by
    rw [hpop, List.append_assoc, ← hplen, List.drop_left]
  refine ⟨fun v s cand f t q l h => generateChildren_sound v s cand f t q l h,
    ?_, ?_, hcounts⟩
  · rw [hdrop]
    simp [hmlen, hclen]
  · intro g hg
    exact hall g (hdrop ▸ hg)

/- Concrete witnesses evaluating the embedded search on the example
fixture.  The rational arithmetic of the objective transform is marked
locally semireducible so that `decide` can evaluate it. -/

section

set_option allowUnsafeReducibility true

attribute [local semireducible] Rat.add Rat.sub Rat.mul Rat.inv

/-- C1 witness: in a two-point history where point 1 is non-dominated
after the `max(all_params) - params` transform, its gene lies on the
recomputed frontier. -/
theorem update_pareto_front_characterization_witness :
    [1] ∈ (update_pareto_front [[0], [1]] [0, 1] [0, 1] [0, 0] [0, 0]).population :=
  (update_pareto_front_characterization [[0], [1]] [0, 1] [0, 1] [0, 0] [0, 0]
    (by decide) (by decide) (by decide)).2.2 1 (by decide) (by decide)

/-- C2 witness: one concrete generation on the example fixture yields a
population of exactly `population_size = 4` genes. -/
theorem population_size_invariant_witness :
    ((searchStep exampleConfig exampleOracles exampleRand 2 true
        exampleState).get (by decide)).population.length = 4 := by
  obtain ⟨p, m, c, hpop, hp, hm, hc, hlen⟩ :=
    population_size_invariant.2.1 exampleConfig exampleOracles exampleRand 2
      true exampleState _ (Option.some_get (by decide)).symm
  exact hlen (by decide)

/-- C3 witness: on the example fixture the first generation appends to
the history exactly the objective values of the whole population. -/
theorem evaluation_reuse_policy_witness :
    ((searchStep exampleConfig exampleOracles exampleRand 2 true
        exampleState).get (by decide)).all_params =
      exampleState.all_params ++
        ((exampleState.population.drop 0).map
          fun g => (exampleOracles.objectives g).1) := by
  have h := evaluation_reuse_policy exampleConfig exampleOracles exampleRand 2
    true exampleState _ (by decide) (by decide)
    (Option.some_get (by decide)).symm
  exact h.2.2.1

/-- C4 witness: on the example fixture the third member of the new
population (the accepted mutated child) passes the constraint check and
was never seen in the run before. -/
theorem children_novel_and_valid_witness :
    check_constraints exampleConfig.param_constraint_lower
        exampleConfig.param_constraint_upper
        exampleConfig.latency_constraint_upper exampleOracles.analyticalParams
        exampleOracles.measuredLatency
        (((searchStep exampleConfig exampleOracles exampleRand 2 true
            exampleState).get (by decide)).population.getD 2 []) = true ∧
      is_seen_before exampleState.counts
        (((searchStep exampleConfig exampleOracles exampleRand 2 true
            exampleState).get (by decide)).population.getD 2 []) = false := by
  have h := children_novel_and_valid exampleConfig exampleOracles exampleRand 2
    true exampleState _ (Option.some_get (by decide)).symm
  exact h.2.2.1 _ (by decide)

end

end Archai
